import Mathlib

/-!
# devcontainers-go: decoding of devcontainer.json

A shallow embedding of package `devcontainers` (`common.go`, `devcontainer.go`,
`dockerfile.go`, `noncompose.go`) together with the part of Go's `encoding/json`,
`strings` and `fmt` that the package calls.

* A document is a parsed JSON tree (`Json`); the byte-level scanner of
  `encoding/json` is not modelled, a text that does not scan is `none`.
* A Go `interface{}` value is an `Iface`; `fmt`'s `%T` is `Iface.typeName`.
* Slices are lists (a nil slice and an empty slice are both `[]`), maps are
  association lists with unique keys, a nil pointer is `none`.
* A run-time panic is the outcome `Error.indexOutOfRange`.
-/

namespace devcontainers

/-! ## JSON documents and Go dynamic values -/

/-- A JSON number literal, with the results of the two `strconv` conversions that
`encoding/json` applies to it: `int64` is the value `strconv.ParseInt` returns for the
literal (`none` when it reports an error: a fraction, an exponent, or a value outside
64 bits), `inFloat64` says whether `strconv.ParseFloat` accepts it (it reports a range
error for literals such as `1e999`). -/
structure Number where
  literal : String
  int64 : Option Int
  inFloat64 : Bool

/-- A parsed JSON value. Object members are kept in document order, duplicates
included, which is the order in which `encoding/json` visits them. -/
inductive Json where
  | null
  | bool (b : Bool)
  | num (n : Number)
  | str (s : String)
  | arr (xs : List Json)
  | obj (kvs : List (String × Json))

/-- A Go value held in an `interface{}`. The first six constructors are the dynamic
types `encoding/json` produces when it decodes into an empty interface; `strings` is a
value of dynamic type `[]string`, which Go code can build but the decoder never does. -/
inductive Iface where
  | nil
  | bool (b : Bool)
  | float64 (n : Number)
  | string (s : String)
  | slice (xs : List Iface)
  | map (m : List (String × Iface))
  | strings (xs : List String)

/-- The text `fmt` prints for the verb `%T`. -/
def Iface.typeName : Iface → String
  | .nil => "<nil>"
  | .bool _ => "bool"
  | .float64 _ => "float64"
  | .string _ => "string"
  | .slice _ => "[]interface \x7b\x7d"
  | .map _ => "map[string]interface \x7b\x7d"
  | .strings _ => "[]string"

/-- Errors of the package and of `encoding/json`. -/
inductive Error where
  /-- An error made by `fmt.Errorf` without a wrapped cause; `msg` is its message. -/
  | errorf (msg : String)
  /-- A `*json.UnmarshalTypeError` with its fields `Value` and `Type`: the JSON value
  does not fit the Go type. -/
  | unmarshalType (value : String) (goType : String)
  /-- A `*json.SyntaxError`: the text is not JSON. -/
  | malformed
  /-- The error of `os.ReadFile`. -/
  | readFile (msg : String)
  /-- An error made by `fmt.Errorf("context: %w", err)`. -/
  | wrapped (context : String) (err : Error)
  /-- The run-time panic `index out of range [index] with length length`. -/
  | indexOutOfRange (index length : Nat)

/-- The `Value` field `encoding/json` puts in an `UnmarshalTypeError` for a JSON value
of the wrong kind. -/
def Json.kindName : Json → String
  | .null => "null"
  | .bool _ => "bool"
  | .num _ => "number"
  | .str _ => "string"
  | .arr _ => "array"
  | .obj _ => "object"

/-! ## Go maps -/

/-- The assignment `m[k] = v`. -/
def mapSet {α : Type} (k : String) (v : α) : List (String × α) → List (String × α)
  | [] => [(k, v)]
  | (k0, v0) :: rest => if k0 = k then (k, v) :: rest else (k0, v0) :: mapSet k v rest

/-- The lookup `v, ok := m[k]`; `none` is `ok == false`. -/
def mapGet {α : Type} (k : String) : List (String × α) → Option α
  | [] => none
  | (k0, v0) :: rest => if k0 = k then some v0 else mapGet k rest

/-! ## Decoding into `interface{}` -/

mutual
/-- The decoder of `encoding/json` for a target of type `interface{}`
(`valueInterface`): string to `string`, number to `float64`, array to
`[]interface{}`, object to `map[string]interface{}`, `null` to nil. The only error is
a number literal that `strconv.ParseFloat` rejects. -/
def valueInterface : Json → Except Error Iface
  | .null => .ok .nil
  | .bool b => .ok (.bool b)
  | .num n =>
    if n.inFloat64 then .ok (.float64 n)
    else .error (.unmarshalType ("number " ++ n.literal) "float64")
  | .str s => .ok (.string s)
  | .arr xs =>
    match arrayInterface xs with
    | .ok vs => .ok (.slice vs)
    | .error e => .error e
  | .obj kvs =>
    match objectInterface kvs [] with
    | .ok m => .ok (.map m)
    | .error e => .error e
/-- The elements of an array, decoded in order. -/
def arrayInterface : List Json → Except Error (List Iface)
  | [] => .ok []
  | x :: xs =>
    match valueInterface x with
    | .error e => .error e
    | .ok v =>
      match arrayInterface xs with
      | .error e => .error e
      | .ok vs => .ok (v :: vs)
/-- The members of an object, stored one after the other in the map `m`. -/
def objectInterface : List (String × Json) → List (String × Iface) →
    Except Error (List (String × Iface))
  | [], m => .ok m
  | (k, x) :: rest, m =>
    match valueInterface x with
    | .error e => .error e
    | .ok v => objectInterface rest (mapSet k v m)
end

/-- The call `json.Unmarshal(data, &m)` for `m` of type `map[string]interface{}`: an
object adds its members to `m`, `null` makes `m` nil, any other value is a type
error. -/
def unmarshalMap (m : List (String × Iface)) : Json → Except Error (List (String × Iface))
  | .obj kvs => objectInterface kvs m
  | .null => .ok []
  | j => .error (.unmarshalType j.kindName "map[string]interface \x7b\x7d")

/-! ## `strings.Split` -/

/-- The pieces of a text between its space characters: `strings.Split(s, " ")` on the
characters of `s`. The result is never empty. -/
def splitSpaces : List Char → List (List Char)
  | [] => [[]]
  | c :: cs =>
    if c = ' ' then [] :: splitSpaces cs
    else
      match splitSpaces cs with
      | [] => [[c]]
      | p :: ps => (c :: p) :: ps

/-- The call `strings.Split(s, " ")`. -/
def Split (s : String) : List String :=
  (splitSpaces s.data).map String.mk

/-! ## `Command` (common.go) -/

/-- The struct `Command`. -/
structure Command where
  Cmd : String := ""
  Args : List String := []

/-- The method `(c *Command) UnmarshalJSON(data []byte) error`, for `data` the text of
the JSON value `data`, which is what `encoding/json` hands to an `Unmarshaler`. The
result is the receiver after the call, or the error returned. -/
def Command.UnmarshalJSON (c : Command) (data : Json) : Except Error Command :=
  -- jsonData := fmt.Sprintf("{ \"data\": %s }", string(data))
  let jsonData := Json.obj [("data", data)]
  -- parseData := map[string]interface{}{}; err := json.Unmarshal([]byte(jsonData), &parseData)
  match unmarshalMap [] jsonData with
  | .error err => .error err
  | .ok parseData =>
    -- val, ok := parseData["data"]
    match mapGet "data" parseData with
    | none => .error (.errorf "no data??")
    | some val =>
      -- switch v := val.(type)
      match val with
      | .string v =>
        -- strs := strings.Split(v, " "); c.Cmd = strs[0]; c.Args = strs[1:]
        match Split v with
        | [] => .error (.indexOutOfRange 0 0)
        | s0 :: rest => .ok { c with Cmd := s0, Args := rest }
      | .strings v =>
        -- c.Cmd = v[0]; c.Args = v[1:]
        match v with
        | [] => .error (.indexOutOfRange 0 0)
        | v0 :: rest => .ok { c with Cmd := v0, Args := rest }
      | v => .error (.errorf ("invalid type " ++ v.typeName))

/-! ## Decoding into typed Go values -/

/-- What storing one JSON value into a Go value comes to. -/
inductive Decoded (α : Type) where
  /-- The value was stored. -/
  | ok (a : α)
  /-- The decoder recorded the error (`saveError`) and goes on with the rest of the
  document; `json.Unmarshal` returns the first error recorded, at the end. -/
  | saved (e : Error)
  /-- An `Unmarshaler` returned the error: decoding stops and returns it. -/
  | abort (e : Error)

/-- The stored value, transformed. -/
def Decoded.map {α β : Type} (f : α → β) : Decoded α → Decoded β
  | .ok a => .ok (f a)
  | .saved e => .saved e
  | .abort e => .abort e

/-- A JSON string into a Go string type; `null` leaves the value as it is. -/
def decodeString (goType : String) (old : String) : Json → Decoded String
  | .str s => .ok s
  | .null => .ok old
  | j => .saved (.unmarshalType j.kindName goType)

/-- A JSON boolean into a `bool`. -/
def decodeBool (old : Bool) : Json → Decoded Bool
  | .bool b => .ok b
  | .null => .ok old
  | j => .saved (.unmarshalType j.kindName "bool")

/-- A JSON number into an `int`. -/
def decodeInt (old : Int) : Json → Decoded Int
  | .num n =>
    match n.int64 with
    | some i => .ok i
    | none => .saved (.unmarshalType ("number " ++ n.literal) "int")
  | .null => .ok old
  | j => .saved (.unmarshalType j.kindName "int")

/-- Any JSON value into an `interface{}`. -/
def decodeInterface (_old : Iface) (j : Json) : Decoded Iface :=
  match valueInterface j with
  | .ok v => .ok v
  | .error e => .saved e

/-- A JSON object into a `*InterfaceMap`: the pointer and the map are allocated when
nil, the members are added to the map; `null` makes the pointer nil. -/
def decodeInterfaceMap (old : Option (List (String × Iface))) :
    Json → Decoded (Option (List (String × Iface)))
  | .obj kvs =>
    match objectInterface kvs (old.getD []) with
    | .ok m => .ok (some m)
    | .error e => .saved e
  | .null => .ok none
  | j => .saved (.unmarshalType j.kindName "devcontainers.InterfaceMap")

/-- The elements of a JSON array stored in a slice whose elements so far are `old`:
element `i` of the array is decoded by `dec` into element `i` of the slice when the
slice has one, into the zero value `zero` otherwise. -/
def decodeElems {α : Type} (dec : α → Json → Decoded α) (zero : α) :
    List α → List Json → Decoded (List α)
  | _, [] => .ok []
  | old, x :: xs =>
    match dec (old.headD zero) x with
    | .abort e => .abort e
    | .saved e =>
      match decodeElems dec zero old.tail xs with
      | .abort e1 => .abort e1
      | _ => .saved e
    | .ok a => (decodeElems dec zero old.tail xs).map (fun l => a :: l)

/-- A JSON array into a slice: the elements are decoded in place, the slice grows by
zero values as needed and ends with the length of the array; `null` makes the slice
nil. (Elements that an earlier, longer array left in the spare capacity of the slice
are taken to be zero values.) -/
def decodeSlice {α : Type} (goType : String) (dec : α → Json → Decoded α) (zero : α)
    (old : List α) : Json → Decoded (List α)
  | .arr xs => decodeElems dec zero old xs
  | .null => .ok []
  | j => .saved (.unmarshalType j.kindName goType)

/-- The members of a JSON object stored in a map with string keys, each value decoded
by `dec` into a fresh element. `saved` is the first error recorded so far. -/
def objectMap {α : Type} (dec : Json → Decoded α) :
    List (String × Json) → List (String × α) → Option Error → Decoded (List (String × α))
  | [], m, none => .ok m
  | [], _, some e => .saved e
  | (k, x) :: rest, m, saved =>
    match dec x with
    | .abort e => .abort e
    | .saved e => objectMap dec rest m (some (saved.getD e))
    | .ok a => objectMap dec rest (mapSet k a m) saved

/-- A JSON object into a map with string keys; `null` makes the map nil. -/
def decodeMap {α : Type} (goType : String) (dec : Json → Decoded α)
    (old : List (String × α)) : Json → Decoded (List (String × α))
  | .obj kvs => objectMap dec kvs old none
  | .null => .ok []
  | j => .saved (.unmarshalType j.kindName goType)

/-! ## Decoding into structs -/

/-- One field of a struct as `encoding/json` sees it: the name it answers to (the Go
name, the package uses no tags), the length of its index path through embedded structs,
and the decoder that stores a value into it. -/
structure FieldDesc (α : Type) where
  name : String
  depth : Nat
  store : Json → α → Decoded α

/-- A field with the getter, the setter and the decoder of its type. -/
def field {α β : Type} (name : String) (get : α → β) (set : α → β → α)
    (dec : β → Json → Decoded β) : FieldDesc α :=
  { name := name, depth := 1, store := fun j r => (dec (get r) j).map (set r) }

/-- The fields of an embedded struct, seen from the struct that embeds it: one level
deeper. -/
def embed {α β : Type} (get : β → α) (set : β → α → β) (fs : List (FieldDesc α)) :
    List (FieldDesc β) :=
  fs.map (fun f =>
    { name := f.name, depth := f.depth + 1,
      store := fun j r => (f.store j (get r)).map (set r) })

/-- Go's rule for untagged fields that share a name: the one at the least depth wins
when it is alone there, otherwise none of them is a JSON field. -/
def dominant {α : Type} (fields : List (FieldDesc α)) (f : FieldDesc α) : Bool :=
  (fields.filter (fun g => g.name == f.name && decide (g.depth ≤ f.depth))).length == 1

/-- The JSON fields of a struct (`typeFields`). -/
def typeFields {α : Type} (fields : List (FieldDesc α)) : List (FieldDesc α) :=
  fields.filter (dominant fields)

/-- Case folding of the runes whose fold orbit meets ASCII: the ASCII letters, the long
s (U+017F) and the Kelvin sign (U+212A). The struct fields of the package are ASCII, so
no other orbit matters to whether a key equals a field name under folding. -/
def foldRune (c : Char) : Char :=
  if c = Char.ofNat 0x17F then 'S'
  else if c = Char.ofNat 0x212A then 'K'
  else c.toUpper

/-- The folded form of a name. -/
def foldName (s : String) : List Char :=
  s.data.map foldRune

/-- The field an object key selects: the field with exactly that name, or else the
first field whose name equals the key under case folding. -/
def findField {α : Type} (fields : List (FieldDesc α)) (key : String) :
    Option (FieldDesc α) :=
  match fields.find? (fun f => f.name == key) with
  | some f => some f
  | none => fields.find? (fun f => foldName f.name == foldName key)

/-- The members of a JSON object stored in a struct, in document order. A key that
selects no field is skipped. `saved` is the first error recorded so far. -/
def objectStruct {α : Type} (fields : List (FieldDesc α)) :
    List (String × Json) → α → Option Error → Decoded α
  | [], r, none => .ok r
  | [], _, some e => .saved e
  | (k, v) :: rest, r, saved =>
    match findField fields k with
    | none => objectStruct fields rest r saved
    | some f =>
      match f.store v r with
      | .abort e => .abort e
      | .saved e => objectStruct fields rest r (some (saved.getD e))
      | .ok r1 => objectStruct fields rest r1 saved

/-- A JSON value into a struct with the declared fields `fields`: an object stores its
members into the fields already there, `null` changes nothing. -/
def decodeStruct {α : Type} (goType : String) (fields : List (FieldDesc α)) (old : α) :
    Json → Decoded α
  | .obj kvs => objectStruct (typeFields fields) kvs old none
  | .null => .ok old
  | j => .saved (.unmarshalType j.kindName goType)

/-! ## The structs of the package -/

/-- The struct `PortAttribute` (`Label` and `AutoForward` are string types). -/
structure PortAttribute where
  Label : String := ""
  OnAutoForward : String := ""
  ElevateIfNeeded : Bool := false
  RequireLocalPort : Bool := false
  Protocol : String := ""

/-- The struct `HostRequirement`. -/
structure HostRequirement where
  Cpus : Int := 0
  Memory : String := ""
  Storage : String := ""
  Gpu : Bool := false

/-- The struct `Mount`. -/
structure Mount where
  «Type» : String := ""
  Source : String := ""
  Target : String := ""

/-- The struct `DevContainerCommon`. -/
structure DevContainerCommon where
  Name : String := ""
  Features : Option (List (String × Iface)) := none
  OverrideFeatureInstallOrder : List String := []
  ForwardPorts : List String := []
  PortAttributes : List (String × PortAttribute) := []
  OtherPortsAttributes : PortAttribute := {}
  UpdateRemoteUserUID : Bool := false
  ContainerEnv : Option (List (String × Iface)) := none
  ContainerUser : String := ""
  Mounts : List Mount := []
  Init : Bool := false
  Privileged : Bool := false
  CapAdd : List String := []
  SecurityOpt : List String := []
  RemoteEnv : Option (List (String × Iface)) := none
  RemoteUser : String := ""
  InitializeCommand : Command := {}
  OnCreateCommand : Command := {}
  UpdateContentCommand : Command := {}
  PostCreateCommand : Command := {}
  PostStartCommand : Command := {}
  PostAttachCommand : Command := {}
  WaitFor : String := ""
  UserEnvProbe : String := ""
  HostRequirements : HostRequirement := {}
  Customizations : Iface := .nil
  AdditionalProperties : Iface := .nil

/-- The struct `DevContainerNonComposeBase`. -/
structure DevContainerNonComposeBase where
  AppPort : List String := []
  RunArgs : List String := []
  ShutdownAction : String := ""
  OverrideCommand : Bool := false
  WorkspaceFolder : String := ""
  WorkspaceMount : String := ""

/-- The struct `DockerfileBuildOpts`. -/
structure DockerfileBuildOpts where
  Dockerfile : String := ""
  Context : String := ""

/-- The struct `DevContainerDockerfileContainer`. -/
structure DevContainerDockerfileContainer where
  Build : DockerfileBuildOpts := {}

/-- The struct `BuildOptions`. -/
structure BuildOptions where
  Target : String := ""
  Args : List String := []
  CacheFrom : List String := []

/-- The struct `ImageContainer`. -/
structure ImageContainer where
  Image : String := ""

/-- The struct `ComposeContainer`. -/
structure ComposeContainer where
  DockerComposeFile : List String := []
  Service : String := ""
  RunServices : List String := []
  WorkspaceFolder : String := ""
  ShutdownAction : String := ""
  OverrideCommand : Bool := false

/-- The struct `DevContainerBase`: seven embedded structs. -/
structure DevContainerBase where
  DevContainerCommon : DevContainerCommon := {}
  DevContainerNonComposeBase : DevContainerNonComposeBase := {}
  DevContainerDockerfileContainer : DevContainerDockerfileContainer := {}
  BuildOptions : BuildOptions := {}
  ImageContainer : ImageContainer := {}
  ComposeContainer : ComposeContainer := {}
  Mount : Mount := {}

/-- The struct `DevContainer`: `DevContainerBase` embedded. -/
structure DevContainer where
  DevContainerBase : DevContainerBase := {}

/-! ## The fields of each struct, in declaration order -/

/-- A `[]string` field. -/
def decodeStrings : List String → Json → Decoded (List String) :=
  decodeSlice "[]string" (decodeString "string") ""

/-- A field of type `Command`, which has the method `UnmarshalJSON`: the decoder calls
it for every JSON value, `null` included, and stops at the error it returns. -/
def decodeCommand (old : Command) (j : Json) : Decoded Command :=
  match Command.UnmarshalJSON old j with
  | .ok c => .ok c
  | .error e => .abort e

/-- Fields of `PortAttribute`. -/
def portAttributeFields : List (FieldDesc PortAttribute) :=
  [ field "Label" (·.Label) (fun r v => { r with Label := v })
      (decodeString "devcontainers.Label"),
    field "OnAutoForward" (·.OnAutoForward) (fun r v => { r with OnAutoForward := v })
      (decodeString "devcontainers.AutoForward"),
    field "ElevateIfNeeded" (·.ElevateIfNeeded) (fun r v => { r with ElevateIfNeeded := v })
      decodeBool,
    field "RequireLocalPort" (·.RequireLocalPort)
      (fun r v => { r with RequireLocalPort := v }) decodeBool,
    field "Protocol" (·.Protocol) (fun r v => { r with Protocol := v })
      (decodeString "string") ]

/-- A value of type `PortAttribute`. -/
def decodePortAttribute : PortAttribute → Json → Decoded PortAttribute :=
  decodeStruct "devcontainers.PortAttribute" portAttributeFields

/-- Fields of `HostRequirement`. -/
def hostRequirementFields : List (FieldDesc HostRequirement) :=
  [ field "Cpus" (·.Cpus) (fun r v => { r with Cpus := v }) decodeInt,
    field "Memory" (·.Memory) (fun r v => { r with Memory := v }) (decodeString "string"),
    field "Storage" (·.Storage) (fun r v => { r with Storage := v })
      (decodeString "string"),
    field "Gpu" (·.Gpu) (fun r v => { r with Gpu := v }) decodeBool ]

/-- Fields of `Mount`. -/
def mountFields : List (FieldDesc Mount) :=
  [ field "Type" (·.«Type») (fun r v => { r with «Type» := v }) (decodeString "string"),
    field "Source" (·.Source) (fun r v => { r with Source := v }) (decodeString "string"),
    field "Target" (·.Target) (fun r v => { r with Target := v })
      (decodeString "string") ]

/-- A value of type `Mount`. -/
def decodeMount : Mount → Json → Decoded Mount :=
  decodeStruct "devcontainers.Mount" mountFields

/-- Fields of `DockerfileBuildOpts`. -/
def dockerfileBuildOptsFields : List (FieldDesc DockerfileBuildOpts) :=
  [ field "Dockerfile" (·.Dockerfile) (fun r v => { r with Dockerfile := v })
      (decodeString "string"),
    field "Context" (·.Context) (fun r v => { r with Context := v })
      (decodeString "string") ]

/-- Fields of `DevContainerCommon`. -/
def devContainerCommonFields : List (FieldDesc DevContainerCommon) :=
  [ field "Name" (·.Name) (fun r v => { r with Name := v }) (decodeString "string"),
    field "Features" (·.Features) (fun r v => { r with Features := v }) decodeInterfaceMap,
    field "OverrideFeatureInstallOrder" (·.OverrideFeatureInstallOrder)
      (fun r v => { r with OverrideFeatureInstallOrder := v }) decodeStrings,
    field "ForwardPorts" (·.ForwardPorts) (fun r v => { r with ForwardPorts := v })
      decodeStrings,
    field "PortAttributes" (·.PortAttributes) (fun r v => { r with PortAttributes := v })
      (decodeMap "map[string]devcontainers.PortAttribute" (decodePortAttribute {})),
    field "OtherPortsAttributes" (·.OtherPortsAttributes)
      (fun r v => { r with OtherPortsAttributes := v }) decodePortAttribute,
    field "UpdateRemoteUserUID" (·.UpdateRemoteUserUID)
      (fun r v => { r with UpdateRemoteUserUID := v }) decodeBool,
    field "ContainerEnv" (·.ContainerEnv) (fun r v => { r with ContainerEnv := v })
      decodeInterfaceMap,
    field "ContainerUser" (·.ContainerUser) (fun r v => { r with ContainerUser := v })
      (decodeString "string"),
    field "Mounts" (·.Mounts) (fun r v => { r with Mounts := v })
      (decodeSlice "[]devcontainers.Mount" decodeMount {}),
    field "Init" (·.Init) (fun r v => { r with Init := v }) decodeBool,
    field "Privileged" (·.Privileged) (fun r v => { r with Privileged := v }) decodeBool,
    field "CapAdd" (·.CapAdd) (fun r v => { r with CapAdd := v }) decodeStrings,
    field "SecurityOpt" (·.SecurityOpt) (fun r v => { r with SecurityOpt := v })
      decodeStrings,
    field "RemoteEnv" (·.RemoteEnv) (fun r v => { r with RemoteEnv := v })
      decodeInterfaceMap,
    field "RemoteUser" (·.RemoteUser) (fun r v => { r with RemoteUser := v })
      (decodeString "string"),
    field "InitializeCommand" (·.InitializeCommand)
      (fun r v => { r with InitializeCommand := v }) decodeCommand,
    field "OnCreateCommand" (·.OnCreateCommand)
      (fun r v => { r with OnCreateCommand := v }) decodeCommand,
    field "UpdateContentCommand" (·.UpdateContentCommand)
      (fun r v => { r with UpdateContentCommand := v }) decodeCommand,
    field "PostCreateCommand" (·.PostCreateCommand)
      (fun r v => { r with PostCreateCommand := v }) decodeCommand,
    field "PostStartCommand" (·.PostStartCommand)
      (fun r v => { r with PostStartCommand := v }) decodeCommand,
    field "PostAttachCommand" (·.PostAttachCommand)
      (fun r v => { r with PostAttachCommand := v }) decodeCommand,
    field "WaitFor" (·.WaitFor) (fun r v => { r with WaitFor := v })
      (decodeString "string"),
    field "UserEnvProbe" (·.UserEnvProbe) (fun r v => { r with UserEnvProbe := v })
      (decodeString "string"),
    field "HostRequirements" (·.HostRequirements)
      (fun r v => { r with HostRequirements := v })
      (decodeStruct "devcontainers.HostRequirement" hostRequirementFields),
    field "Customizations" (·.Customizations) (fun r v => { r with Customizations := v })
      decodeInterface,
    field "AdditionalProperties" (·.AdditionalProperties)
      (fun r v => { r with AdditionalProperties := v }) decodeInterface ]

/-- Fields of `DevContainerNonComposeBase`. -/
def devContainerNonComposeBaseFields : List (FieldDesc DevContainerNonComposeBase) :=
  [ field "AppPort" (·.AppPort) (fun r v => { r with AppPort := v }) decodeStrings,
    field "RunArgs" (·.RunArgs) (fun r v => { r with RunArgs := v }) decodeStrings,
    field "ShutdownAction" (·.ShutdownAction) (fun r v => { r with ShutdownAction := v })
      (decodeString "string"),
    field "OverrideCommand" (·.OverrideCommand)
      (fun r v => { r with OverrideCommand := v }) decodeBool,
    field "WorkspaceFolder" (·.WorkspaceFolder)
      (fun r v => { r with WorkspaceFolder := v }) (decodeString "string"),
    field "WorkspaceMount" (·.WorkspaceMount) (fun r v => { r with WorkspaceMount := v })
      (decodeString "string") ]

/-- Fields of `DevContainerDockerfileContainer`. -/
def devContainerDockerfileContainerFields :
    List (FieldDesc DevContainerDockerfileContainer) :=
  [ field "Build" (·.Build) (fun r v => { r with Build := v })
      (decodeStruct "devcontainers.DockerfileBuildOpts" dockerfileBuildOptsFields) ]

/-- Fields of `BuildOptions`. -/
def buildOptionsFields : List (FieldDesc BuildOptions) :=
  [ field "Target" (·.Target) (fun r v => { r with Target := v }) (decodeString "string"),
    field "Args" (·.Args) (fun r v => { r with Args := v }) decodeStrings,
    field "CacheFrom" (·.CacheFrom) (fun r v => { r with CacheFrom := v }) decodeStrings ]

/-- Fields of `ImageContainer`. -/
def imageContainerFields : List (FieldDesc ImageContainer) :=
  [ field "Image" (·.Image) (fun r v => { r with Image := v }) (decodeString "string") ]

/-- Fields of `ComposeContainer`. -/
def composeContainerFields : List (FieldDesc ComposeContainer) :=
  [ field "DockerComposeFile" (·.DockerComposeFile)
      (fun r v => { r with DockerComposeFile := v }) decodeStrings,
    field "Service" (·.Service) (fun r v => { r with Service := v })
      (decodeString "string"),
    field "RunServices" (·.RunServices) (fun r v => { r with RunServices := v })
      decodeStrings,
    field "WorkspaceFolder" (·.WorkspaceFolder)
      (fun r v => { r with WorkspaceFolder := v }) (decodeString "string"),
    field "ShutdownAction" (·.ShutdownAction) (fun r v => { r with ShutdownAction := v })
      (decodeString "string"),
    field "OverrideCommand" (·.OverrideCommand)
      (fun r v => { r with OverrideCommand := v }) decodeBool ]

/-- Fields of `DevContainerBase`: those of its seven embedded structs. -/
def devContainerBaseFields : List (FieldDesc DevContainerBase) :=
  embed (·.DevContainerCommon) (fun r v => { r with DevContainerCommon := v })
      devContainerCommonFields ++
  embed (·.DevContainerNonComposeBase)
      (fun r v => { r with DevContainerNonComposeBase := v })
      devContainerNonComposeBaseFields ++
  embed (·.DevContainerDockerfileContainer)
      (fun r v => { r with DevContainerDockerfileContainer := v })
      devContainerDockerfileContainerFields ++
  embed (·.BuildOptions) (fun r v => { r with BuildOptions := v }) buildOptionsFields ++
  embed (·.ImageContainer) (fun r v => { r with ImageContainer := v })
      imageContainerFields ++
  embed (·.ComposeContainer) (fun r v => { r with ComposeContainer := v })
      composeContainerFields ++
  embed (·.Mount) (fun r v => { r with Mount := v }) mountFields

/-- Fields of `DevContainer`: those of the embedded `DevContainerBase`. -/
def devContainerFields : List (FieldDesc DevContainer) :=
  embed (·.DevContainerBase) (fun r v => { r with DevContainerBase := v })
    devContainerBaseFields

/-! ## `DevContainerFromPath` (devcontainer.go) -/

/-- The call `json.Unmarshal(contents, devcontainer)` for `devcontainer := &DevContainer{}`
and `contents` the text of the document `doc`. -/
def unmarshalDevContainer (doc : Json) : Except Error DevContainer :=
  match decodeStruct "devcontainers.DevContainer" devContainerFields {} doc with
  | .ok r => .ok r
  | .saved e => .error e
  | .abort e => .error e

/-- The function `DevContainerFromPath(path string) (*DevContainer, error)`. The file
system is the function `readFile`, which gives for a path the error of `os.ReadFile` or
the contents of the file: `none` for a text that is not JSON, the document otherwise. -/
def DevContainerFromPath (readFile : String → Except Error (Option Json)) (path : String) :
    Except Error DevContainer :=
  -- contents, err := os.ReadFile(path)
  match readFile path with
  | .error err => .error (.wrapped "reading file" err)
  | .ok contents =>
    -- devcontainer := &DevContainer{}; err = json.Unmarshal(contents, devcontainer)
    let result : Except Error DevContainer :=
      match contents with
      | none => .error .malformed
      | some doc => unmarshalDevContainer doc
    match result with
    | .error err => .error (.wrapped "unmarshalling devcontainer" err)
    | .ok devcontainer => .ok devcontainer

/-! ## Promoted fields of `DevContainer` -/

/-- The promoted field `Name`. -/
abbrev DevContainer.Name (d : DevContainer) : String :=
  d.DevContainerBase.DevContainerCommon.Name

/-- The promoted field `PostCreateCommand`. -/
abbrev DevContainer.PostCreateCommand (d : DevContainer) : Command :=
  d.DevContainerBase.DevContainerCommon.PostCreateCommand

/-- The promoted field `AdditionalProperties`. -/
abbrev DevContainer.AdditionalProperties (d : DevContainer) : Iface :=
  d.DevContainerBase.DevContainerCommon.AdditionalProperties

/-- The promoted field `Build`. -/
abbrev DevContainer.Build (d : DevContainer) : DockerfileBuildOpts :=
  d.DevContainerBase.DevContainerDockerfileContainer.Build

/-- The promoted field `Image`. -/
abbrev DevContainer.Image (d : DevContainer) : String :=
  d.DevContainerBase.ImageContainer.Image

/-- The promoted field `DockerComposeFile`. -/
abbrev DevContainer.DockerComposeFile (d : DevContainer) : List String :=
  d.DevContainerBase.ComposeContainer.DockerComposeFile

/-- The promoted field `Service`. -/
abbrev DevContainer.Service (d : DevContainer) : String :=
  d.DevContainerBase.ComposeContainer.Service

/-- The promoted field `RunServices`. -/
abbrev DevContainer.RunServices (d : DevContainer) : List String :=
  d.DevContainerBase.ComposeContainer.RunServices

/-! ## Notions of the specification -/

/-- The call `strings.Join(elems, " ")` on character lists. -/
def joinChars : List (List Char) → List Char
  | [] => []
  | [a] => a
  | a :: b :: rest => a ++ ' ' :: joinChars (b :: rest)

/-- The call `strings.Join(elems, " ")`: the elements with one space between
neighbours. -/
def Join (elems : List String) : String :=
  String.mk (joinChars (elems.map String.data))

/-- White space as Go's `unicode.IsSpace` has it. -/
def isSpace (c : Char) : Bool :=
  let n := c.toNat
  (9 ≤ n && n ≤ 13) || n == 0x20 || n == 0x85 || n == 0xA0 || n == 0x1680 ||
    (0x2000 ≤ n && n ≤ 0x200A) || n == 0x2028 || n == 0x2029 || n == 0x202F ||
    n == 0x205F || n == 0x3000

/-- The whitespace-delimited tokens of a text, as the specification speaks of them:
the maximal runs of characters that are not white space, in order. -/
def tokenChars : List Char → List (List Char)
  | [] => []
  | c :: cs =>
    if isSpace c then tokenChars cs
    else
      match cs with
      | [] => [[c]]
      | d :: _ =>
        if isSpace d then [c] :: tokenChars cs
        else
          match tokenChars cs with
          | [] => [[c]]
          | t :: ts => (c :: t) :: ts

/-- The whitespace-delimited tokens of a string. -/
def specTokens (s : String) : List String :=
  (tokenChars s.data).map String.mk

/-- The Go type that decoding into `interface{}` gives a JSON value of each shape, as
`%T` prints it. -/
def Json.goTypeName : Json → String
  | .null => "<nil>"
  | .bool _ => "bool"
  | .num _ => "float64"
  | .str _ => "string"
  | .arr _ => "[]interface \x7b\x7d"
  | .obj _ => "map[string]interface \x7b\x7d"

/-- The error `encoding/json` reports for a number literal outside the range of
`float64`. -/
def isRangeError (e : Error) : Prop :=
  ∃ n : Number, n.inFloat64 = false ∧
    e = .unmarshalType ("number " ++ n.literal) "float64"

/-- The comparison of an object key with a name under the decoder's case folding. -/
def equalFold (key name : String) : Bool :=
  foldName key == foldName name

/-! ## Lemmas on `strings.Split` and `strings.Join` -/

theorem splitSpaces_ne_nil (l : List Char) : splitSpaces l ≠ [] := by
  cases l with
  | nil => simp [splitSpaces]
  | cons c cs =>
    unfold splitSpaces
    split
    · simp
    · split <;> simp

theorem joinChars_cons_cons (c : Char) (p : List Char) (ps : List (List Char)) :
    joinChars ((c :: p) :: ps) = c :: joinChars (p :: ps) := by
  cases ps <;> simp [joinChars]

theorem joinChars_splitSpaces (l : List Char) : joinChars (splitSpaces l) = l := by
  induction l with
  | nil => simp [splitSpaces, joinChars]
  | cons c cs ih =>
    have hne := splitSpaces_ne_nil cs
    unfold splitSpaces
    split
    · rename_i hc
      cases hsp : splitSpaces cs with
      | nil => exact absurd hsp hne
      | cons p ps =>
        rw [hsp] at ih
        simp [joinChars, ih, hc]
    · cases hsp : splitSpaces cs with
      | nil => exact absurd hsp hne
      | cons p ps =>
        rw [hsp] at ih
        simp [joinChars_cons_cons, ih]

theorem length_splitSpaces (l : List Char) :
    (splitSpaces l).length = l.count ' ' + 1 := by
  induction l with
  | nil => simp [splitSpaces]
  | cons c cs ih =>
    have hne := splitSpaces_ne_nil cs
    unfold splitSpaces
    split
    · rename_i hc
      simp [ih, hc]
    · rename_i hc
      cases hsp : splitSpaces cs with
      | nil => exact absurd hsp hne
      | cons p ps =>
        rw [hsp] at ih
        have hc1 : (c == ' ') = false := by simpa using hc
        simp only [List.length_cons] at ih ⊢
        rw [List.count_cons, hc1]
        simpa using ih

theorem splitSpaces_append (t l : List Char) (ht : ' ' ∉ t) (p : List Char)
    (ps : List (List Char)) (hl : splitSpaces l = p :: ps) :
    splitSpaces (t ++ l) = (t ++ p) :: ps := by
  induction t with
  | nil => simpa using hl
  | cons c cs ih =>
    have hc : c ≠ ' ' := fun h => ht (by simp [h])
    have hcs : ' ' ∉ cs := fun h => ht (by simp [h])
    have h := ih hcs
    simp only [List.cons_append]
    unfold splitSpaces
    rw [if_neg hc, h]

theorem splitSpaces_of_not_mem (t : List Char) (ht : ' ' ∉ t) : splitSpaces t = [t] := by
  have h := splitSpaces_append t [] ht [] [] (by simp [splitSpaces])
  simpa using h

theorem splitSpaces_joinChars (toks : List (List Char)) (hne : toks ≠ [])
    (h : ∀ t ∈ toks, ' ' ∉ t) : splitSpaces (joinChars toks) = toks := by
  induction toks with
  | nil => exact absurd rfl hne
  | cons a rest ih =>
    cases rest with
    | nil => simpa [joinChars] using splitSpaces_of_not_mem a (h a (by simp))
    | cons b rest2 =>
      have ih2 := ih (by simp) (fun t ht => h t (by simp [ht]))
      have hsp : splitSpaces (' ' :: joinChars (b :: rest2)) = [] :: (b :: rest2) := by
        rw [splitSpaces, if_pos rfl, ih2]
      have := splitSpaces_append a _ (h a (by simp)) [] (b :: rest2) hsp
      simpa [joinChars] using this

theorem Split_Join (toks : List String) (hne : toks ≠ [])
    (h : ∀ t ∈ toks, ' ' ∉ t.data) : Split (Join toks) = toks := by
  unfold Split Join
  have h1 : splitSpaces (joinChars (toks.map String.data)) = toks.map String.data := by
    apply splitSpaces_joinChars
    · simpa using hne
    · intro t ht
      obtain ⟨x, hx, rfl⟩ := List.mem_map.1 ht
      exact h x hx
  simp only [h1, List.map_map]
  exact (List.map_congr_left (fun x _ => rfl)).trans (List.map_id toks)

theorem Join_Split (s : String) : Join (Split s) = s := by
  unfold Split Join
  have h : (List.map String.mk (splitSpaces s.data)).map String.data = splitSpaces s.data := by
    rw [List.map_map]
    exact (List.map_congr_left (fun x _ => rfl)).trans (List.map_id _)
  rw [h, joinChars_splitSpaces]

/-! ## Lemmas on `Command.UnmarshalJSON` -/

theorem UnmarshalJSON_str (c : Command) (s : String) :
    Command.UnmarshalJSON c (.str s) =
      match Split s with
      | [] => .error (.indexOutOfRange 0 0)
      | s0 :: rest => .ok { Cmd := s0, Args := rest } := rfl

theorem arrayInterface_strs (L : List String) :
    arrayInterface (L.map Json.str) = .ok (L.map Iface.string) := by
  induction L with
  | nil => rfl
  | cons a rest ih => simp [arrayInterface, valueInterface, ih]

theorem UnmarshalJSON_of_valueInterface (c : Command) (v : Json) :
    Command.UnmarshalJSON c v =
      match valueInterface v with
      | .error e => .error e
      | .ok (.string x) =>
        (match Split x with
        | [] => .error (.indexOutOfRange 0 0)
        | s0 :: rest => .ok { Cmd := s0, Args := rest })
      | .ok (.strings x) =>
        (match x with
        | [] => .error (.indexOutOfRange 0 0)
        | v0 :: rest => .ok { Cmd := v0, Args := rest })
      | .ok val => .error (.errorf ("invalid type " ++ val.typeName)) := by
  unfold Command.UnmarshalJSON
  simp only [unmarshalMap, objectInterface]
  cases hv : valueInterface v with
  | error e => rfl
  | ok val => cases val <;> simp [objectInterface, mapSet, mapGet]

/-! ## Lemmas on whitespace-delimited tokens -/

theorem tokenChars_cons_space (c : Char) (l : List Char) (h : isSpace c = true) :
    tokenChars (c :: l) = tokenChars l := by
  cases l <;> simp [tokenChars, h]

theorem tokenChars_run (c : Char) (cs rest : List Char)
    (h : ∀ x ∈ c :: cs, isSpace x = false)
    (hrest : rest = [] ∨ ∃ d r, rest = d :: r ∧ isSpace d = true) :
    tokenChars (c :: cs ++ rest) = (c :: cs) :: tokenChars rest := by
  induction cs generalizing c with
  | nil =>
    have hc : isSpace c = false := h c (by simp)
    rcases hrest with rfl | ⟨d, r, rfl, hd⟩
    · simp [tokenChars, hc]
    · simp only [List.cons_append, List.nil_append]
      rw [tokenChars]
      simp [hc, hd]
  | cons d ds ih =>
    have hc : isSpace c = false := h c (by simp)
    have hd : isSpace d = false := h d (by simp)
    have ih2 := ih d (fun x hx => h x (List.mem_cons_of_mem _ hx))
    simp only [List.cons_append] at ih2 ⊢
    rw [tokenChars]
    simp [hc, hd, ih2]

theorem tokenChars_joinChars (toks : List (List Char))
    (h : ∀ t ∈ toks, t ≠ [] ∧ ∀ x ∈ t, isSpace x = false) :
    tokenChars (joinChars toks) = toks := by
  induction toks with
  | nil => rfl
  | cons a rest ih =>
    obtain ⟨hane, ha⟩ := h a (by simp)
    obtain ⟨c, cs, rfl⟩ := List.exists_cons_of_ne_nil hane
    cases rest with
    | nil =>
      have := tokenChars_run c cs [] ha (Or.inl rfl)
      simpa [joinChars, tokenChars] using this
    | cons b rest2 =>
      have ih2 := ih (fun t ht => h t (List.mem_cons_of_mem _ ht))
      have hsp : isSpace ' ' = true := by decide
      have := tokenChars_run c cs (' ' :: joinChars (b :: rest2)) ha
        (Or.inr ⟨' ', _, rfl, hsp⟩)
      have h2 : tokenChars (' ' :: joinChars (b :: rest2)) = b :: rest2 := by
        rw [tokenChars_cons_space _ _ hsp, ih2]
      rw [h2] at this
      simpa [joinChars] using this

theorem tokenChars_of_spaces (l : List Char) (h : ∀ x ∈ l, isSpace x = true) :
    tokenChars l = [] := by
  induction l with
  | nil => rfl
  | cons c cs ih =>
    rw [tokenChars_cons_space _ _ (h c (by simp))]
    exact ih (fun x hx => h x (List.mem_cons_of_mem _ hx))

theorem mem_of_mem_splitSpaces (l p : List Char) (hp : p ∈ splitSpaces l) :
    ∀ x ∈ p, x ∈ l := by
  induction l generalizing p with
  | nil =>
    simp [splitSpaces] at hp
    subst hp
    simp
  | cons c cs ih =>
    have hne := splitSpaces_ne_nil cs
    unfold splitSpaces at hp
    split at hp
    · rcases List.mem_cons.1 hp with rfl | hp2
      · simp
      · intro x hx
        exact List.mem_cons_of_mem _ (ih p hp2 x hx)
    · cases hsp : splitSpaces cs with
      | nil => exact absurd hsp hne
      | cons q qs =>
        rw [hsp] at hp ih
        simp only [List.mem_cons] at hp
        rcases hp with rfl | hp2
        · intro x hx
          rcases List.mem_cons.1 hx with rfl | hx2
          · simp
          · exact List.mem_cons_of_mem _ (ih q (by simp) x hx2)
        · intro x hx
          exact List.mem_cons_of_mem _ (ih p (by simp [hp2]) x hx)

theorem specTokens_Join (toks : List String)
    (h : ∀ t ∈ toks, t ≠ "" ∧ ∀ ch ∈ t.data, isSpace ch = false) :
    specTokens (Join toks) = toks := by
  unfold specTokens Join
  have h1 : tokenChars (joinChars (toks.map String.data)) = toks.map String.data := by
    apply tokenChars_joinChars
    intro t ht
    obtain ⟨x, hx, rfl⟩ := List.mem_map.1 ht
    refine ⟨fun h0 => (h x hx).1 ?_, (h x hx).2⟩
    exact String.ext h0
  simp only [h1, List.map_map]
  exact (List.map_congr_left (fun x _ => rfl)).trans (List.map_id toks)

/-! ## The claims on `Command.UnmarshalJSON` -/

/-- C2, refuted as stated: the text " go" has the one whitespace-delimited token "go",
yet `Command.UnmarshalJSON` sets `Cmd` to the empty string and `Args` to ["go"]. -/
theorem C2_counterexample :
    specTokens " go" = ["go"] ∧
      Command.UnmarshalJSON {} (.str " go") = .ok { Cmd := "", Args := ["go"] } ∧
      ("" : String) ≠ "go" := by
  refine ⟨by decide, rfl, by decide⟩

/-- C2, amended: for a string made of non-empty tokens free of white space, joined by
single space characters, `Command.UnmarshalJSON` sets `Cmd` to the first token and
`Args` to the remaining tokens in order; these are the whitespace-delimited tokens of
the string. -/
theorem C2_single_spaced_tokens (c : Command) (toks : List String) (hne : toks ≠ [])
    (htok : ∀ t ∈ toks, t ≠ "" ∧ ∀ ch ∈ t.data, isSpace ch = false) :
    Command.UnmarshalJSON c (.str (Join toks)) =
        .ok { Cmd := toks.head hne, Args := toks.tail } ∧
      specTokens (Join toks) = toks := by
  refine ⟨?_, specTokens_Join toks htok⟩
  have hsp : ∀ t ∈ toks, ' ' ∉ t.data := by
    intro t ht hmem
    have := (htok t ht).2 ' ' hmem
    exact absurd this (by decide)
  rw [UnmarshalJSON_str, Split_Join toks hne hsp]
  cases toks with
  | nil => exact absurd rfl hne
  | cons a rest => rfl

/-- C2, the amended claim at the tokens "go", "mod", "download". -/
theorem C2_single_spaced_tokens_witness :
    Command.UnmarshalJSON {} (.str (Join ["go", "mod", "download"])) =
        .ok { Cmd := "go", Args := ["mod", "download"] } ∧
      specTokens (Join ["go", "mod", "download"]) = ["go", "mod", "download"] :=
  C2_single_spaced_tokens {} ["go", "mod", "download"] (by simp) (by decide)

/-- C3, refuted as stated: the empty JSON string and a JSON string of two spaces are
decoded without error, to a `Command` with an empty `Cmd`. -/
theorem C3_counterexample :
    Command.UnmarshalJSON {} (.str "") = .ok { Cmd := "", Args := [] } ∧
      Command.UnmarshalJSON {} (.str "  ") = .ok { Cmd := "", Args := ["", ""] } :=
  ⟨rfl, rfl⟩

/-- C3, amended: `Command.UnmarshalJSON` returns an error for the empty JSON array;
for the empty JSON string it returns no error and yields an empty `Cmd` and no `Args`;
for every JSON string of white space only it returns no error and yields a `Command`
whose `Cmd` and `Args` hold no token, with one element of `Args` for each space
character of the string. -/
theorem C3_empty_inputs (c : Command) (s : String)
    (hs : ∀ ch ∈ s.data, isSpace ch = true) :
    Command.UnmarshalJSON c (.arr []) =
        .error (.errorf "invalid type []interface \x7b\x7d") ∧
      Command.UnmarshalJSON c (.str "") = .ok { Cmd := "", Args := [] } ∧
      ∃ cmd args, Command.UnmarshalJSON c (.str s) = .ok { Cmd := cmd, Args := args } ∧
        specTokens cmd = [] ∧ (∀ a ∈ args, specTokens a = []) ∧
        args.length = s.data.count ' ' := by
  refine ⟨rfl, rfl, ?_⟩
  have hpieces : ∀ p ∈ Split s, specTokens p = [] := by
    intro p hp
    unfold Split at hp
    obtain ⟨q, hq, rfl⟩ := List.mem_map.1 hp
    unfold specTokens
    have : tokenChars q = [] :=
      tokenChars_of_spaces q (fun x hx => hs x (mem_of_mem_splitSpaces _ q hq x hx))
    simp [this]
  have hlen : (Split s).length = s.data.count ' ' + 1 := by
    simp [Split, length_splitSpaces]
  rw [UnmarshalJSON_str]
  cases hsp : Split s with
  | nil => simp [hsp] at hlen
  | cons s0 rest =>
    rw [hsp] at hpieces hlen
    refine ⟨s0, rest, rfl, hpieces s0 (by simp), fun a ha => hpieces a (by simp [ha]), ?_⟩
    simpa using hlen

/-- C3, the amended claim at the string of one tab and one space. -/
theorem C3_empty_inputs_witness :
    Command.UnmarshalJSON {} (.arr []) =
        .error (.errorf "invalid type []interface \x7b\x7d") ∧
      Command.UnmarshalJSON {} (.str "") = .ok { Cmd := "", Args := [] } ∧
      ∃ cmd args, Command.UnmarshalJSON {} (.str "\t ") = .ok { Cmd := cmd, Args := args } ∧
        specTokens cmd = [] ∧ (∀ a ∈ args, specTokens a = []) ∧
        args.length = "\t ".data.count ' ' :=
  C3_empty_inputs {} "\t " (by decide)

/-- C10: for every string `s`, the empty one and those with leading, trailing or
repeated spaces included, `Command.UnmarshalJSON` on the JSON string `s` returns no
error and does not index out of range; `Cmd` followed by `Args`, joined by single
spaces, is `s` itself, and `Args` has as many elements as `s` has space characters. -/
theorem C10_split_is_inverse_of_join (c : Command) (s : String) :
    ∃ cmd args, Command.UnmarshalJSON c (.str s) = .ok { Cmd := cmd, Args := args } ∧
      Join (cmd :: args) = s ∧ args.length = s.data.count ' ' := by
  have hjoin := Join_Split s
  have hlen : (Split s).length = s.data.count ' ' + 1 := by
    simp [Split, length_splitSpaces]
  rw [UnmarshalJSON_str]
  cases hsp : Split s with
  | nil => simp [hsp] at hlen
  | cons s0 rest =>
    rw [hsp] at hjoin hlen
    exact ⟨s0, rest, rfl, hjoin, by simpa using hlen⟩

/-! ## Lemmas on the decoding of objects into structs -/

theorem Decoded.map_eq_ok {α β : Type} (f : α → β) (d : Decoded α) (b : β) :
    d.map f = .ok b ↔ ∃ a, d = .ok a ∧ f a = b := by
  cases d <;> simp [Decoded.map]

theorem findField_some {α : Type} (fields : List (FieldDesc α)) (k : String)
    (f : FieldDesc α) (h : findField fields k = some f) :
    f ∈ fields ∧ equalFold k f.name = true := by
  unfold findField at h
  split at h
  · rename_i g hg
    cases h
    refine ⟨List.mem_of_find?_eq_some hg, ?_⟩
    have := List.find?_some hg
    simp only [beq_iff_eq] at this
    simp [equalFold, this]
  · refine ⟨List.mem_of_find?_eq_some h, ?_⟩
    have := List.find?_some h
    simp only [beq_iff_eq] at this
    simp [equalFold, this]

theorem objectStruct_saved_ne_ok {α : Type} (fields : List (FieldDesc α))
    (kvs : List (String × Json)) (r r1 : α) (e : Error) :
    objectStruct fields kvs r (some e) ≠ .ok r1 := by
  induction kvs generalizing r e with
  | nil => simp [objectStruct]
  | cons kv rest ih =>
    obtain ⟨k, v⟩ := kv
    unfold objectStruct
    split
    · exact ih r e
    · split
      · simp
      · exact ih r _
      · exact ih _ e

/-- A projection that no member of the object can change is the same after the
decoding as before. -/
theorem objectStruct_frame {α γ : Type} (fields : List (FieldDesc α)) (proj : α → γ)
    (kvs : List (String × Json))
    (hk : ∀ kv ∈ kvs, ∀ f, findField fields kv.1 = some f →
      ∀ r r1, f.store kv.2 r = .ok r1 → proj r1 = proj r)
    (r r1 : α) (saved : Option Error) (h : objectStruct fields kvs r saved = .ok r1) :
    proj r1 = proj r := by
  induction kvs generalizing r saved with
  | nil =>
    cases saved with
    | none => simp [objectStruct] at h; rw [h]
    | some e => simp [objectStruct] at h
  | cons kv rest ih =>
    obtain ⟨k, v⟩ := kv
    have ihr := ih (fun kv hkv => hk kv (List.mem_cons_of_mem _ hkv))
    unfold objectStruct at h
    split at h
    · exact ihr r saved h
    · rename_i f hf
      split at h
      · simp at h
      · exact ihr r _ h
      · rename_i r2 hst
        rw [ihr r2 saved h]
        exact hk (k, v) (by simp) f hf r r2 hst

/-- The last member that writes a projection decides it. -/
theorem objectStruct_last {α γ : Type} (fields : List (FieldDesc α)) (proj : α → γ)
    (x : γ) (k : String) (v : Json) (f : FieldDesc α) (hf : findField fields k = some f)
    (hset : ∀ r r1, f.store v r = .ok r1 → proj r1 = x)
    (pre post : List (String × Json))
    (hpost : ∀ kv ∈ post, ∀ g, findField fields kv.1 = some g →
      ∀ r r1, g.store kv.2 r = .ok r1 → proj r1 = proj r)
    (r r1 : α) (saved : Option Error)
    (h : objectStruct fields (pre ++ (k, v) :: post) r saved = .ok r1) :
    proj r1 = x := by
  induction pre generalizing r saved with
  | nil =>
    simp only [List.nil_append] at h
    unfold objectStruct at h
    rw [hf] at h
    simp only at h
    split at h
    · simp at h
    · exact absurd h (objectStruct_saved_ne_ok _ _ _ _ _)
    · rename_i r2 hst
      rw [objectStruct_frame fields proj post hpost r2 r1 saved h]
      exact hset r r2 hst
  | cons kv rest ih =>
    obtain ⟨k0, v0⟩ := kv
    simp only [List.cons_append] at h
    unfold objectStruct at h
    split at h
    · exact ih r saved h
    · split at h
      · simp at h
      · exact ih r _ h
      · exact ih _ saved h

/-- A member whose key selects no field changes nothing. -/
theorem objectStruct_skip {α : Type} (fields : List (FieldDesc α)) (k : String) (v : Json)
    (hk : findField fields k = none) (pre post : List (String × Json)) (r : α)
    (saved : Option Error) :
    objectStruct fields (pre ++ (k, v) :: post) r saved =
      objectStruct fields (pre ++ post) r saved := by
  induction pre generalizing r saved with
  | nil =>
    simp only [List.nil_append]
    conv => lhs; unfold objectStruct
    rw [hk]
  | cons kv rest ih =>
    obtain ⟨k0, v0⟩ := kv
    simp only [List.cons_append]
    conv => lhs; unfold objectStruct
    conv => rhs; unfold objectStruct
    split
    · exact ih r saved
    · split
      · rfl
      · exact ih r _
      · exact ih _ saved

/-- A member whose field stops the decoding makes the whole object fail. -/
theorem objectStruct_abort {α : Type} (fields : List (FieldDesc α)) (k : String) (v : Json)
    (f : FieldDesc α) (hf : findField fields k = some f)
    (hab : ∀ r, ∃ e, f.store v r = .abort e) (pre post : List (String × Json)) (r : α)
    (saved : Option Error) :
    ∃ e, objectStruct fields (pre ++ (k, v) :: post) r saved = .abort e := by
  induction pre generalizing r saved with
  | nil =>
    obtain ⟨e, he⟩ := hab r
    refine ⟨e, ?_⟩
    simp only [List.nil_append]
    unfold objectStruct
    rw [hf]
    simp only [he]
  | cons kv rest ih =>
    obtain ⟨k0, v0⟩ := kv
    simp only [List.cons_append]
    unfold objectStruct
    split
    · exact ih r saved
    · split
      · exact ⟨_, rfl⟩
      · exact ih r _
      · exact ih _ saved

/-- An object is decoded without error only if each of its initial parts is. -/
theorem objectStruct_initial {α : Type} (fields : List (FieldDesc α))
    (pre post : List (String × Json)) (r r1 : α) (saved : Option Error)
    (h : objectStruct fields (pre ++ post) r saved = .ok r1) :
    ∃ r2, objectStruct fields pre r saved = .ok r2 := by
  induction pre generalizing r saved with
  | nil =>
    cases saved with
    | none => exact ⟨r, by simp [objectStruct]⟩
    | some e => exact absurd h (objectStruct_saved_ne_ok _ _ _ _ _)
  | cons kv rest ih =>
    obtain ⟨k0, v0⟩ := kv
    simp only [List.cons_append] at h
    unfold objectStruct at h ⊢
    split at h
    · exact ih r saved h
    · split at h
      · simp at h
      · exact ih r _ h
      · exact ih _ saved h

theorem Decoded.map_map {α β γ : Type} (f : α → β) (g : β → γ) (d : Decoded α) :
    (d.map f).map g = d.map (fun a => g (f a)) := by
  cases d <;> rfl

theorem objectStruct_cons {α : Type} (fields : List (FieldDesc α)) (k : String) (v : Json)
    (f : FieldDesc α) (hf : findField fields k = some f) (rest : List (String × Json))
    (r : α) (saved : Option Error) :
    objectStruct fields ((k, v) :: rest) r saved =
      match f.store v r with
      | .abort e => .abort e
      | .saved e => objectStruct fields rest r (some (saved.getD e))
      | .ok r1 => objectStruct fields rest r1 saved := by
  conv => lhs; unfold objectStruct
  rw [hf]


/-! ## Lemmas on decoding into `interface{}` -/

mutual
theorem valueInterface_error : ∀ (v : Json) (e : Error),
    valueInterface v = .error e → isRangeError e
  | .null, e, h => by simp [valueInterface] at h
  | .bool _, e, h => by simp [valueInterface] at h
  | .str _, e, h => by simp [valueInterface] at h
  | .num n, e, h => by
    simp only [valueInterface] at h
    split at h
    · simp at h
    · rename_i hn
      cases h
      exact ⟨n, by simpa using hn, rfl⟩
  | .arr xs, e, h => by
    simp only [valueInterface] at h
    split at h
    · simp at h
    · rename_i e1 he1
      cases h
      exact arrayInterface_error xs e he1
  | .obj kvs, e, h => by
    simp only [valueInterface] at h
    split at h
    · simp at h
    · rename_i e1 he1
      cases h
      exact objectInterface_error kvs [] e he1
theorem arrayInterface_error : ∀ (xs : List Json) (e : Error),
    arrayInterface xs = .error e → isRangeError e
  | [], e, h => by simp [arrayInterface] at h
  | x :: xs, e, h => by
    simp only [arrayInterface] at h
    split at h
    · rename_i e1 he1
      cases h
      exact valueInterface_error x e he1
    · split at h
      · rename_i e1 he1
        cases h
        exact arrayInterface_error xs e he1
      · simp at h
theorem objectInterface_error : ∀ (kvs : List (String × Json)) (m : List (String × Iface))
    (e : Error), objectInterface kvs m = .error e → isRangeError e
  | [], m, e, h => by simp [objectInterface] at h
  | (k, x) :: kvs, m, e, h => by
    simp only [objectInterface] at h
    split at h
    · rename_i e1 he1
      cases h
      exact valueInterface_error x e he1
    · exact objectInterface_error kvs _ e h
end


theorem valueInterface_typeName (v : Json) (x : Iface) (h : valueInterface v = .ok x) :
    x.typeName = v.goTypeName := by
  cases v with
  | null => simp [valueInterface] at h; subst h; rfl
  | bool b => simp [valueInterface] at h; subst h; rfl
  | str s => simp [valueInterface] at h; subst h; rfl
  | num n =>
    simp only [valueInterface] at h
    split at h
    · cases h; rfl
    · simp at h
  | arr xs =>
    simp only [valueInterface] at h
    split at h
    · cases h; rfl
    · simp at h
  | obj kvs =>
    simp only [valueInterface] at h
    split at h
    · cases h; rfl
    · simp at h

/-! ## Lemmas on the fields of `DevContainer` -/

theorem store_frame (f : FieldDesc DevContainer) (hf : f ∈ devContainerFields)
    (j : Json) (r r1 : DevContainer) (h : f.store j r = .ok r1) :
    (f.name ≠ "Build" → r1.Build = r.Build) ∧
    (f.name ≠ "Image" → r1.Image = r.Image) ∧
    (f.name ≠ "DockerComposeFile" → r1.DockerComposeFile = r.DockerComposeFile) ∧
    (f.name ≠ "Service" → r1.Service = r.Service) ∧
    (f.name ≠ "RunServices" → r1.RunServices = r.RunServices) ∧
    (f.name ≠ "AdditionalProperties" → r1.AdditionalProperties = r.AdditionalProperties) := by
  simp only [devContainerFields, devContainerBaseFields, devContainerCommonFields,
    devContainerNonComposeBaseFields, devContainerDockerfileContainerFields,
    buildOptionsFields, imageContainerFields, composeContainerFields, mountFields,
    embed, field, List.map_cons, List.map_nil, List.cons_append, List.nil_append,
    List.map_append, List.mem_cons, List.mem_singleton, List.not_mem_nil, or_false] at hf
  repeat' (rcases hf with hf | hf)
  all_goals
    try subst hf
    simp only [Decoded.map_map, Decoded.map_eq_ok] at h
    obtain ⟨a, -, rfl⟩ := h
    simp

theorem postCreateCommand_field :
    ∃ f, findField (typeFields devContainerFields) "postCreateCommand" = some f ∧
      ∀ (v : Json) (r : DevContainer), f.store v r =
        match Command.UnmarshalJSON r.PostCreateCommand v with
        | .ok c => .ok { DevContainerBase := { r.DevContainerBase with
            DevContainerCommon := { r.DevContainerBase.DevContainerCommon with
              PostCreateCommand := c } } }
        | .error e => .abort e := by
  refine ⟨_, rfl, ?_⟩
  intro v r
  simp only [field, Decoded.map_map, decodeCommand]
  cases Command.UnmarshalJSON r.PostCreateCommand v <;> rfl

theorem name_field :
    ∃ f, findField (typeFields devContainerFields) "name" = some f ∧
      ∀ (n : String) (r : DevContainer), f.store (.str n) r =
        .ok { DevContainerBase := { r.DevContainerBase with
            DevContainerCommon := { r.DevContainerBase.DevContainerCommon with
              Name := n } } } :=
  ⟨_, rfl, fun _ _ => rfl⟩

theorem image_field :
    ∃ f, findField (typeFields devContainerFields) "image" = some f ∧
      ∀ (i : String) (r : DevContainer), f.store (.str i) r =
        .ok { DevContainerBase := { r.DevContainerBase with
            ImageContainer := { Image := i } } } :=
  ⟨_, rfl, fun _ _ => rfl⟩

theorem build_field :
    ∃ f, findField (typeFields devContainerFields) "build" = some f ∧
      ∀ (v : Json) (r r1 : DevContainer), f.store v r = .ok r1 →
        decodeStruct "devcontainers.DockerfileBuildOpts" dockerfileBuildOptsFields r.Build v =
          .ok r1.Build := by
  refine ⟨_, rfl, ?_⟩
  intro v r r1 h
  simp only [field, Decoded.map_map, Decoded.map_eq_ok] at h
  obtain ⟨a, ha, rfl⟩ := h
  exact ha

theorem dockerfile_field :
    ∃ f, findField (typeFields dockerfileBuildOptsFields) "dockerfile" = some f ∧
      ∀ (p : String) (r r1 : DockerfileBuildOpts), f.store (.str p) r = .ok r1 →
        r1.Dockerfile = p := by
  refine ⟨_, rfl, ?_⟩
  intro p r r1 h
  simp only [field, decodeString, Decoded.map] at h
  cases h
  rfl

theorem unmarshal_obj (kvs : List (String × Json)) :
    unmarshalDevContainer (.obj kvs) =
      match objectStruct (typeFields devContainerFields) kvs {} none with
      | .ok r => .ok r
      | .saved e => .error e
      | .abort e => .error e := rfl


theorem unmarshal_ok_iff (kvs : List (String × Json)) (r : DevContainer) :
    unmarshalDevContainer (.obj kvs) = .ok r ↔
      objectStruct (typeFields devContainerFields) kvs {} none = .ok r := by
  rw [unmarshal_obj]
  split <;> simp_all

theorem mem_of_mem_typeFields {α : Type} (fields : List (FieldDesc α)) (f : FieldDesc α)
    (h : f ∈ typeFields fields) : f ∈ fields :=
  (List.mem_filter.1 h).1

theorem equalFold_of_foldName_eq (k a b : String) (hab : foldName a = foldName b) :
    equalFold k a = equalFold k b := by
  simp [equalFold, hab]

/-- A member of a document changes none of the origin fields and not
`AdditionalProperties`, unless its key is the name of that field under case folding. -/
theorem key_frame (k : String) (v : Json) (f : FieldDesc DevContainer)
    (hfind : findField (typeFields devContainerFields) k = some f) (r r1 : DevContainer)
    (h : f.store v r = .ok r1) :
    (equalFold k "build" = false → r1.Build = r.Build) ∧
    (equalFold k "image" = false → r1.Image = r.Image) ∧
    (equalFold k "dockerComposeFile" = false →
      r1.DockerComposeFile = r.DockerComposeFile) ∧
    (equalFold k "service" = false → r1.Service = r.Service) ∧
    (equalFold k "runServices" = false → r1.RunServices = r.RunServices) ∧
    (equalFold k "additionalProperties" = false →
      r1.AdditionalProperties = r.AdditionalProperties) := by
  obtain ⟨hmem, hfold⟩ := findField_some _ _ _ hfind
  obtain ⟨h1, h2, h3, h4, h5, h6⟩ :=
    store_frame f (mem_of_mem_typeFields _ _ hmem) v r r1 h
  have key : ∀ (a b : String), foldName a = foldName b → equalFold k b = false →
      f.name ≠ a := by
    intro a b hab hb hname
    rw [hname, equalFold_of_foldName_eq k a b hab, hb] at hfold
    exact Bool.noConfusion hfold
  exact ⟨fun hk => h1 (key _ _ (by decide) hk), fun hk => h2 (key _ _ (by decide) hk),
    fun hk => h3 (key _ _ (by decide) hk), fun hk => h4 (key _ _ (by decide) hk),
    fun hk => h5 (key _ _ (by decide) hk), fun hk => h6 (key _ _ (by decide) hk)⟩

/-- A member of a `build` object leaves `Dockerfile` alone, unless its key is
`dockerfile` under case folding. -/
theorem dockerfile_frame (k : String) (v : Json) (g : FieldDesc DockerfileBuildOpts)
    (hfind : findField (typeFields dockerfileBuildOptsFields) k = some g)
    (hk : equalFold k "dockerfile" = false) (r r1 : DockerfileBuildOpts)
    (h : g.store v r = .ok r1) : r1.Dockerfile = r.Dockerfile := by
  obtain ⟨hmem, hfold⟩ := findField_some _ _ _ hfind
  have hmem2 := mem_of_mem_typeFields _ _ hmem
  simp only [dockerfileBuildOptsFields, List.mem_cons, List.mem_singleton,
    List.not_mem_nil, or_false] at hmem2
  rcases hmem2 with rfl | rfl
  · have hfold2 : equalFold k "Dockerfile" = true := hfold
    rw [equalFold_of_foldName_eq k "Dockerfile" "dockerfile" (by decide), hk] at hfold2
    exact Bool.noConfusion hfold2
  · simp only [field, Decoded.map_eq_ok] at h
    obtain ⟨a, -, rfl⟩ := h
    rfl

theorem unmarshal_three (n i c : String) :
    unmarshalDevContainer
        (.obj [("name", .str n), ("image", .str i), ("postCreateCommand", .str c)]) =
      match Command.UnmarshalJSON {} (.str c) with
      | .ok cmd => .ok { DevContainerBase := { DevContainerCommon := { Name := n, PostCreateCommand := cmd }, ImageContainer := { Image := i } } }
      | .error e => .error e := by
  obtain ⟨f1, hf1, hs1⟩ := name_field
  obtain ⟨f2, hf2, hs2⟩ := image_field
  obtain ⟨f3, hf3, hs3⟩ := postCreateCommand_field
  rw [unmarshal_obj]
  rw [objectStruct_cons _ _ _ f1 hf1, hs1]
  simp only
  rw [objectStruct_cons _ _ _ f2 hf2, hs2]
  simp only
  rw [objectStruct_cons _ _ _ f3 hf3, hs3]
  cases Command.UnmarshalJSON {} (.str c) <;> rfl


/-- A member whose key selects no field of `DevContainer` does not change what the
document is decoded to. -/
theorem unmarshal_skip (k : String) (v : Json)
    (hk : findField (typeFields devContainerFields) k = none)
    (pre post : List (String × Json)) :
    unmarshalDevContainer (.obj (pre ++ (k, v) :: post)) =
      unmarshalDevContainer (.obj (pre ++ post)) := by
  rw [unmarshal_obj, unmarshal_obj, objectStruct_skip _ k v hk]

theorem DevContainerFromPath_of_read (readFile : String → Except Error (Option Json))
    (path : String) (doc : Json) (h : readFile path = .ok (some doc)) :
    DevContainerFromPath readFile path =
      match unmarshalDevContainer doc with
      | .error err => .error (.wrapped "unmarshalling devcontainer" err)
      | .ok devcontainer => .ok devcontainer := by
  unfold DevContainerFromPath
  rw [h]

/-! ## The claims on the decoding of documents -/

/-- C1, as the code has it: the JSON array of any list of strings, a non-empty one
included, is decoded to a `[]interface{}`, which the type switch of
`Command.UnmarshalJSON` sends to its default case: the call returns the error
`invalid type []interface {}` and sets neither `Cmd` nor `Args`. The document
`{"image": "alpine", "postCreateCommand": ["echo", "hello", "world"]}` makes
`DevContainerFromPath` return that error. -/
theorem C1_array_of_strings_is_rejected (c : Command) (L : List String) :
    Command.UnmarshalJSON c (.arr (L.map Json.str)) =
      .error (.errorf "invalid type []interface \x7b\x7d") ∧
    DevContainerFromPath
        (fun _ => .ok (some (.obj [("image", .str "alpine"),
          ("postCreateCommand", .arr [.str "echo", .str "hello", .str "world"])])))
        "devcontainer.json" =
      .error (.wrapped "unmarshalling devcontainer"
        (.errorf "invalid type []interface \x7b\x7d")) := by
  refine ⟨?_, rfl⟩
  rw [UnmarshalJSON_of_valueInterface]
  simp [valueInterface, arrayInterface_strs, Iface.typeName]

/-- C4, refuted as stated: for the object `{"a": 1e999}` `Command.UnmarshalJSON`
returns the error that `encoding/json` reports for the number literal `1e999`, which
`strconv.ParseFloat` rejects: the inner `json.Unmarshal` fails before the type switch is
reached, and the error is not the one that names the shape observed, an object. -/
theorem C4_counterexample :
    Command.UnmarshalJSON {} (.obj [("a", .num ⟨"1e999", none, false⟩)]) =
      .error (.unmarshalType "number 1e999" "float64") ∧
    Error.unmarshalType "number 1e999" "float64" ≠
      .errorf ("invalid type " ++
        (Json.obj [("a", .num ⟨"1e999", none, false⟩)]).goTypeName) :=
  ⟨rfl, fun h => Error.noConfusion h⟩

/-- C4, amended: for every JSON value that is a number, a boolean, `null` or an object,
`Command.UnmarshalJSON` returns an error. The error is `invalid type T`, where `T` is
the Go type of the shape observed (`float64`, `bool`, `<nil>`,
`map[string]interface {}`), except when the inner `json.Unmarshal` fails on a number
literal of the value that is outside the range of `float64`: then it is the error
`encoding/json` reports for that number. A document that has such a value under the
key `postCreateCommand` makes `DevContainerFromPath` return an error. -/
theorem C4_other_shapes_are_rejected (c : Command) (v : Json)
    (hv : (∃ n, v = .num n) ∨ (∃ b, v = .bool b) ∨ v = .null ∨ ∃ kvs, v = .obj kvs) :
    (∃ e, Command.UnmarshalJSON c v = .error e ∧
      (e = .errorf ("invalid type " ++ v.goTypeName) ∨
        (isRangeError e ∧ valueInterface v = .error e))) ∧
    ∀ (readFile : String → Except Error (Option Json)) (path : String)
      (pre post : List (String × Json)),
      readFile path = .ok (some (.obj (pre ++ ("postCreateCommand", v) :: post))) →
      ∃ e, DevContainerFromPath readFile path =
        .error (.wrapped "unmarshalling devcontainer" e) := by
  have hcmd : ∀ c0 : Command, ∃ e, Command.UnmarshalJSON c0 v = .error e ∧
      (e = .errorf ("invalid type " ++ v.goTypeName) ∨
        (isRangeError e ∧ valueInterface v = .error e)) := by
    intro c0
    rw [UnmarshalJSON_of_valueInterface]
    cases hvi : valueInterface v with
    | error e => exact ⟨e, rfl, Or.inr ⟨valueInterface_error v e hvi, rfl⟩⟩
    | ok val =>
      have hname := valueInterface_typeName v val hvi
      refine ⟨.errorf ("invalid type " ++ v.goTypeName), ?_, Or.inl rfl⟩
      rcases hv with ⟨n, rfl⟩ | ⟨b, rfl⟩ | rfl | ⟨kvs, rfl⟩
      · simp only [valueInterface] at hvi
        split at hvi
        · cases hvi; rfl
        · simp at hvi
      · simp only [valueInterface] at hvi
        cases hvi; rfl
      · simp only [valueInterface] at hvi
        cases hvi; rfl
      · simp only [valueInterface] at hvi
        split at hvi
        · cases hvi; rfl
        · simp at hvi
  refine ⟨hcmd c, ?_⟩
  intro readFile path pre post hread
  obtain ⟨f, hf, hstore⟩ := postCreateCommand_field
  have hab : ∀ r : DevContainer, ∃ e, f.store v r = .abort e := by
    intro r
    obtain ⟨e, he, -⟩ := hcmd r.PostCreateCommand
    exact ⟨e, by rw [hstore, he]⟩
  obtain ⟨e, he⟩ := objectStruct_abort _ _ v f hf hab pre post {} none
  refine ⟨e, ?_⟩
  rw [DevContainerFromPath_of_read readFile path _ hread, unmarshal_obj, he]

/-- C4, the amended claim at the number 42 and the documents that hold it under the key
`postCreateCommand`. -/
theorem C4_other_shapes_are_rejected_witness :
    (∃ e, Command.UnmarshalJSON {} (.num ⟨"42", some 42, true⟩) = .error e ∧
      (e = .errorf ("invalid type " ++ (Json.num ⟨"42", some 42, true⟩).goTypeName) ∨
        (isRangeError e ∧ valueInterface (.num ⟨"42", some 42, true⟩) = .error e))) ∧
    ∀ (readFile : String → Except Error (Option Json)) (path : String)
      (pre post : List (String × Json)),
      readFile path = .ok (some (.obj (pre ++
        ("postCreateCommand", .num ⟨"42", some 42, true⟩) :: post))) →
      ∃ e, DevContainerFromPath readFile path =
        .error (.wrapped "unmarshalling devcontainer" e) :=
  C4_other_shapes_are_rejected {} (.num ⟨"42", some 42, true⟩) (Or.inl ⟨_, rfl⟩)

/-- C5, refuted as stated: the documents `{}` and `{"name": "Go Dev"}` have none of the
keys `build`, `image`, `dockerComposeFile`, and `DevContainerFromPath` returns a record
for each, with every origin field empty. -/
theorem C5_counterexample :
    DevContainerFromPath (fun _ => .ok (some (.obj []))) "devcontainer.json" = .ok {} ∧
    DevContainerFromPath (fun _ => .ok (some (.obj [("name", .str "Go Dev")])))
        "devcontainer.json" =
      .ok { DevContainerBase := { DevContainerCommon := { Name := "Go Dev" } } } :=
  ⟨rfl, rfl⟩

/-- C5, amended: a document that is an object with none of the keys `build`, `image`
and `dockerComposeFile` (in any letter case) does not fail for that: it is decoded
without error whenever the same document with an `image` member added at the end is,
and the record returned has `Build`, `Image` and `DockerComposeFile` empty. -/
theorem C5_no_origin_key (kvs : List (String × Json))
    (h : ∀ kv ∈ kvs, equalFold kv.1 "build" = false ∧ equalFold kv.1 "image" = false ∧
      equalFold kv.1 "dockerComposeFile" = false) :
    (∀ (i : String) (r : DevContainer),
      unmarshalDevContainer (.obj (kvs ++ [("image", .str i)])) = .ok r →
      ∃ r0, unmarshalDevContainer (.obj kvs) = .ok r0) ∧
    ∀ r, unmarshalDevContainer (.obj kvs) = .ok r →
      r.Build = {} ∧ r.Image = "" ∧ r.DockerComposeFile = [] := by
  constructor
  · intro i r hr
    rw [unmarshal_ok_iff] at hr
    obtain ⟨r0, hr0⟩ := objectStruct_initial _ kvs _ _ r none hr
    exact ⟨r0, (unmarshal_ok_iff kvs r0).2 hr0⟩
  · intro r hr
    rw [unmarshal_ok_iff] at hr
    refine ⟨?_, ?_, ?_⟩
    · exact objectStruct_frame _ (fun d => d.Build) kvs
        (fun kv hkv f hf r0 r1 hst => (key_frame kv.1 kv.2 f hf r0 r1 hst).1 (h kv hkv).1)
        {} r none hr
    · exact objectStruct_frame _ (fun d => d.Image) kvs
        (fun kv hkv f hf r0 r1 hst =>
          (key_frame kv.1 kv.2 f hf r0 r1 hst).2.1 (h kv hkv).2.1)
        {} r none hr
    · exact objectStruct_frame _ (fun d => d.DockerComposeFile) kvs
        (fun kv hkv f hf r0 r1 hst =>
          (key_frame kv.1 kv.2 f hf r0 r1 hst).2.2.1 (h kv hkv).2.2)
        {} r none hr

/-- C5, the amended claim at the document `{"name": "Go Dev", "postCreateCommand": "make"}`. -/
theorem C5_no_origin_key_witness :
    (∀ (i : String) (r : DevContainer),
      unmarshalDevContainer (.obj ([("name", .str "Go Dev"),
        ("postCreateCommand", .str "make")] ++ [("image", .str i)])) = .ok r →
      ∃ r0, unmarshalDevContainer (.obj [("name", .str "Go Dev"),
        ("postCreateCommand", .str "make")]) = .ok r0) ∧
    ∀ r, unmarshalDevContainer (.obj [("name", .str "Go Dev"),
        ("postCreateCommand", .str "make")]) = .ok r →
      r.Build = {} ∧ r.Image = "" ∧ r.DockerComposeFile = [] :=
  C5_no_origin_key [("name", .str "Go Dev"), ("postCreateCommand", .str "make")]
    (by decide)

/-- C6, refuted as stated: the document
`{"build": {"dockerfile": "Dockerfile"}, "image": "alpine"}` is decoded to a record with
both `Build.Dockerfile` and `Image` set, and the document `{}` to a record with no
origin field set. -/
theorem C6_counterexample :
    unmarshalDevContainer (.obj [("build", .obj [("dockerfile", .str "Dockerfile")]),
        ("image", .str "alpine")]) =
      .ok { DevContainerBase := {
        DevContainerDockerfileContainer := { Build := { Dockerfile := "Dockerfile" } },
        ImageContainer := { Image := "alpine" } } } ∧
    ("alpine" : String) ≠ "" ∧
    unmarshalDevContainer (.obj []) = .ok {} :=
  ⟨rfl, by decide, rfl⟩

/-- C6, amended: when a document is decoded without error and its last `build` member
is an object whose last `dockerfile` member is the string `p`, the record has
`Build.Dockerfile = p`; each of `Image`, `DockerComposeFile`, `Service` and
`RunServices` is empty when the document has no member with that key (in any letter
case). -/
theorem C6_build_document (pre post bpre bpost : List (String × Json)) (p : String)
    (r : DevContainer)
    (hpost : ∀ kv ∈ post, equalFold kv.1 "build" = false)
    (hbpost : ∀ kv ∈ bpost, equalFold kv.1 "dockerfile" = false)
    (hr : unmarshalDevContainer (.obj (pre ++
      ("build", .obj (bpre ++ ("dockerfile", .str p) :: bpost)) :: post)) = .ok r) :
    r.Build.Dockerfile = p ∧
    ((∀ kv ∈ pre ++ post, equalFold kv.1 "image" = false) → r.Image = "") ∧
    ((∀ kv ∈ pre ++ post, equalFold kv.1 "dockerComposeFile" = false) →
      r.DockerComposeFile = []) ∧
    ((∀ kv ∈ pre ++ post, equalFold kv.1 "service" = false) → r.Service = "") ∧
    ((∀ kv ∈ pre ++ post, equalFold kv.1 "runServices" = false) → r.RunServices = []) := by
  rw [unmarshal_ok_iff] at hr
  obtain ⟨f, hf, hbuild⟩ := build_field
  obtain ⟨g, hg, hdock⟩ := dockerfile_field
  have hmem : ∀ (P : String → Prop), P "build" → (∀ kv ∈ pre ++ post, P kv.1) →
      ∀ kv ∈ pre ++ ("build", Json.obj (bpre ++ ("dockerfile", .str p) :: bpost)) :: post,
        P kv.1 := by
    intro P hb hall kv hkv
    simp only [List.mem_append, List.mem_cons] at hkv
    rcases hkv with hkv | rfl | hkv
    · exact hall kv (by simp [hkv])
    · exact hb
    · exact hall kv (by simp [hkv])
  refine ⟨?_, ?_, ?_, ?_, ?_⟩
  · refine objectStruct_last _ (fun d => d.Build.Dockerfile) p "build" _ f hf ?_ pre post ?_
      {} r none hr
    · intro r0 r1 hst
      have hb := hbuild _ r0 r1 hst
      exact objectStruct_last _ (fun b => b.Dockerfile) p "dockerfile" _ g hg
        (fun b0 b1 hb1 => hdock p b0 b1 hb1) bpre bpost
        (fun kv hkv g1 hg1 b0 b1 hb1 =>
          dockerfile_frame kv.1 kv.2 g1 hg1 (hbpost kv hkv) b0 b1 hb1)
        r0.Build r1.Build none hb
    · intro kv hkv f1 hf1 r0 r1 hst
      have := (key_frame kv.1 kv.2 f1 hf1 r0 r1 hst).1 (hpost kv hkv)
      show r1.Build.Dockerfile = r0.Build.Dockerfile
      rw [this]
  · intro hall
    exact objectStruct_frame _ (fun d => d.Image) _
      (fun kv hkv f1 hf1 r0 r1 hst => (key_frame kv.1 kv.2 f1 hf1 r0 r1 hst).2.1
        (hmem (fun k => equalFold k "image" = false) (by decide) hall kv hkv))
      {} r none hr
  · intro hall
    exact objectStruct_frame _ (fun d => d.DockerComposeFile) _
      (fun kv hkv f1 hf1 r0 r1 hst => (key_frame kv.1 kv.2 f1 hf1 r0 r1 hst).2.2.1
        (hmem (fun k => equalFold k "dockerComposeFile" = false) (by decide) hall kv hkv))
      {} r none hr
  · intro hall
    exact objectStruct_frame _ (fun d => d.Service) _
      (fun kv hkv f1 hf1 r0 r1 hst => (key_frame kv.1 kv.2 f1 hf1 r0 r1 hst).2.2.2.1
        (hmem (fun k => equalFold k "service" = false) (by decide) hall kv hkv))
      {} r none hr
  · intro hall
    exact objectStruct_frame _ (fun d => d.RunServices) _
      (fun kv hkv f1 hf1 r0 r1 hst => (key_frame kv.1 kv.2 f1 hf1 r0 r1 hst).2.2.2.2.1
        (hmem (fun k => equalFold k "runServices" = false) (by decide) hall kv hkv))
      {} r none hr

/-- C6, the amended claim at the document
`{"name": "app", "build": {"dockerfile": "Dockerfile", "context": ".."}}`. -/
theorem C6_build_document_witness :
    ∃ r, unmarshalDevContainer (.obj ([("name", .str "app")] ++
        ("build", .obj ([] ++ ("dockerfile", .str "Dockerfile") ::
          [("context", .str "..")])) :: [])) = .ok r ∧
      r.Build.Dockerfile = "Dockerfile" ∧
      ((∀ kv ∈ [("name", Json.str "app")] ++ [], equalFold kv.1 "image" = false) →
        r.Image = "") ∧
      ((∀ kv ∈ [("name", Json.str "app")] ++ [],
        equalFold kv.1 "dockerComposeFile" = false) → r.DockerComposeFile = []) ∧
      ((∀ kv ∈ [("name", Json.str "app")] ++ [], equalFold kv.1 "service" = false) →
        r.Service = "") ∧
      ((∀ kv ∈ [("name", Json.str "app")] ++ [], equalFold kv.1 "runServices" = false) →
        r.RunServices = []) :=
  ⟨_, rfl, C6_build_document [("name", .str "app")] [] [] [("context", .str "..")]
    "Dockerfile" _ (by decide) (by decide) rfl⟩

/-- C7, as the code has it: the keys `workspaceFolder` and `portsAttributes` select no
field. `WorkspaceFolder` is declared by two embedded structs at the same depth, so it
is no JSON field at all, and the field for port attributes is named `PortAttributes`,
without the `s`. A member with either key is skipped whatever its value, and the
document `{"image": "alpine", "workspaceFolder": "/workspace",
"portsAttributes": {"3000": {"label": "App"}}}` is decoded to a record that holds the
image only. Every other key of the list is stored in its field. -/
theorem C7_ignored_keys (pre post : List (String × Json)) (v : Json) :
    (devContainerFields.filter (fun f => f.name == "WorkspaceFolder")).length = 2 ∧
    ((typeFields devContainerFields).filter (fun f =>
      equalFold "workspaceFolder" f.name || equalFold "portsAttributes" f.name)).length =
      0 ∧
    unmarshalDevContainer (.obj (pre ++ ("workspaceFolder", v) :: post)) =
      unmarshalDevContainer (.obj (pre ++ post)) ∧
    unmarshalDevContainer (.obj (pre ++ ("portsAttributes", v) :: post)) =
      unmarshalDevContainer (.obj (pre ++ post)) ∧
    unmarshalDevContainer (.obj [("image", .str "alpine"),
        ("workspaceFolder", .str "/workspace"),
        ("portsAttributes", .obj [("3000", .obj [("label", .str "App")])])]) =
      .ok { DevContainerBase := {
        DevContainerCommon := { PortAttributes := [] },
        DevContainerNonComposeBase := { WorkspaceFolder := "" },
        ImageContainer := { Image := "alpine" },
        ComposeContainer := { WorkspaceFolder := "" } } } ∧
    unmarshalDevContainer (.obj [
        ("forwardPorts", .arr [.str "3000"]),
        ("otherPortsAttributes", .obj [("onAutoForward", .str "ignore")]),
        ("containerEnv", .obj [("A", .str "b")]),
        ("remoteEnv", .obj [("C", .str "d")]),
        ("initializeCommand", .str "a"),
        ("onCreateCommand", .str "b"),
        ("updateContentCommand", .str "c"),
        ("postCreateCommand", .str "d e"),
        ("postStartCommand", .str "f"),
        ("postAttachCommand", .str "g"),
        ("waitFor", .str "postCreateCommand"),
        ("userEnvProbe", .str "none"),
        ("hostRequirements", .obj [("cpus", .num ⟨"4", some 4, true⟩),
          ("memory", .str "4gb"), ("storage", .str "32gb"), ("gpu", .bool true)]),
        ("build", .obj [("dockerfile", .str "Dockerfile"), ("context", .str "..")]),
        ("image", .str "alpine"),
        ("dockerComposeFile", .arr [.str "docker-compose.yml"]),
        ("service", .str "app"),
        ("runServices", .arr [.str "db"]),
        ("mounts", .arr [.obj [("type", .str "bind"), ("source", .str "/src"),
          ("target", .str "/dst")]])]) =
      .ok { DevContainerBase := {
        DevContainerCommon := {
          ForwardPorts := ["3000"],
          OtherPortsAttributes := { OnAutoForward := "ignore" },
          ContainerEnv := some [("A", .string "b")],
          RemoteEnv := some [("C", .string "d")],
          InitializeCommand := { Cmd := "a", Args := [] },
          OnCreateCommand := { Cmd := "b", Args := [] },
          UpdateContentCommand := { Cmd := "c", Args := [] },
          PostCreateCommand := { Cmd := "d", Args := ["e"] },
          PostStartCommand := { Cmd := "f", Args := [] },
          PostAttachCommand := { Cmd := "g", Args := [] },
          WaitFor := "postCreateCommand",
          UserEnvProbe := "none",
          HostRequirements := { Cpus := 4, Memory := "4gb", Storage := "32gb", Gpu := true },
          Mounts := [{ «Type» := "bind", Source := "/src", Target := "/dst" }] },
        DevContainerDockerfileContainer := {
          Build := { Dockerfile := "Dockerfile", Context := ".." } },
        ImageContainer := { Image := "alpine" },
        ComposeContainer := {
          DockerComposeFile := ["docker-compose.yml"], Service := "app",
          RunServices := ["db"] } } } :=
  ⟨by decide, by decide, unmarshal_skip "workspaceFolder" v rfl pre post,
    unmarshal_skip "portsAttributes" v rfl pre post, rfl, rfl⟩

/-- C8, refuted as stated: the document `{"image": "alpine", "vendorExtension": "x"}`
is decoded without error, `vendorExtension` is no field of the record, and
`AdditionalProperties` is nil. -/
theorem C8_counterexample :
    unmarshalDevContainer (.obj [("image", .str "alpine"),
        ("vendorExtension", .str "x")]) =
      .ok { DevContainerBase := {
        DevContainerCommon := { AdditionalProperties := .nil },
        ImageContainer := { Image := "alpine" } } } ∧
    ((findField (typeFields devContainerFields) "vendorExtension").map (·.name)) = none :=
  ⟨rfl, rfl⟩

/-- C8, amended: a member whose key selects no field of the record is skipped: the
document is decoded to what it is decoded to without that member, record or error. The
field `AdditionalProperties` is nil unless the document has a member whose key is
`additionalProperties` (in any letter case). -/
theorem C8_unknown_key_is_skipped (pre post : List (String × Json)) (k : String)
    (v : Json) (hk : findField (typeFields devContainerFields) k = none) :
    unmarshalDevContainer (.obj (pre ++ (k, v) :: post)) =
      unmarshalDevContainer (.obj (pre ++ post)) ∧
    ((∀ kv ∈ pre ++ post, equalFold kv.1 "additionalProperties" = false) →
      ∀ r, unmarshalDevContainer (.obj (pre ++ (k, v) :: post)) = .ok r →
        r.AdditionalProperties = .nil) := by
  refine ⟨unmarshal_skip k v hk pre post, ?_⟩
  intro hall r hr
  rw [unmarshal_skip k v hk pre post, unmarshal_ok_iff] at hr
  exact objectStruct_frame _ (fun d => d.AdditionalProperties) _
    (fun kv hkv f1 hf1 r0 r1 hst =>
      (key_frame kv.1 kv.2 f1 hf1 r0 r1 hst).2.2.2.2.2 (hall kv hkv))
    {} r none hr

/-- C8, the amended claim at the document `{"image": "alpine", "vendorExtension": "x"}`. -/
theorem C8_unknown_key_is_skipped_witness :
    unmarshalDevContainer (.obj ([("image", .str "alpine")] ++
        ("vendorExtension", .str "x") :: [])) =
      unmarshalDevContainer (.obj ([("image", .str "alpine")] ++ [])) ∧
    ((∀ kv ∈ [("image", Json.str "alpine")] ++ [],
        equalFold kv.1 "additionalProperties" = false) →
      ∀ r, unmarshalDevContainer (.obj ([("image", .str "alpine")] ++
        ("vendorExtension", .str "x") :: [])) = .ok r →
        r.AdditionalProperties = .nil) :=
  C8_unknown_key_is_skipped [("image", .str "alpine")] [] "vendorExtension" (.str "x") rfl

/-- C9: a file that holds `{"name": n, "image": i, "postCreateCommand": c}`, for strings
`n` and `i` and for `c` the non-empty tokens `toks`, none with a space in it, joined by
single spaces, is decoded by `DevContainerFromPath` without error, to the record with
`Name = n`, `Image = i`, `PostCreateCommand.Cmd` the first token,
`PostCreateCommand.Args` the remaining tokens in order, and every other field, those
of the build and compose variants included, empty. -/
theorem C9_name_image_command (readFile : String → Except Error (Option Json))
    (path n i : String) (toks : List String) (hne : toks ≠ [])
    (htok : ∀ t ∈ toks, t ≠ "" ∧ ' ' ∉ t.data)
    (hread : readFile path = .ok (some (.obj [("name", .str n), ("image", .str i),
      ("postCreateCommand", .str (Join toks))]))) :
    DevContainerFromPath readFile path =
      .ok { DevContainerBase := {
        DevContainerCommon := {
          Name := n, PostCreateCommand := { Cmd := toks.head hne, Args := toks.tail } },
        ImageContainer := { Image := i } } } := by
  rw [DevContainerFromPath_of_read readFile path _ hread, unmarshal_three,
    UnmarshalJSON_str, Split_Join toks hne (fun t ht => (htok t ht).2)]
  cases toks with
  | nil => exact absurd rfl hne
  | cons a rest => rfl

/-- C9, at the document
`{"name": "Go Dev", "image": "golang:1.21", "postCreateCommand": "go mod download"}`. -/
theorem C9_name_image_command_witness :
    DevContainerFromPath
        (fun _ => .ok (some (.obj [("name", .str "Go Dev"), ("image", .str "golang:1.21"),
          ("postCreateCommand", .str "go mod download")])))
        ".devcontainer/devcontainer.json" =
      .ok { DevContainerBase := {
        DevContainerCommon := {
          Name := "Go Dev", PostCreateCommand := { Cmd := "go", Args := ["mod", "download"] } },
        ImageContainer := { Image := "golang:1.21" } } } :=
  C9_name_image_command _ ".devcontainer/devcontainer.json" "Go Dev" "golang:1.21"
    ["go", "mod", "download"] (by simp) (by decide) rfl

end devcontainers
